import Mathlib

/-!
Verification of the worktree lifecycle manager of `aristar-worktrees`
(`src-tauri/src/worktrees/*` and `src-tauri/src/agent_manager/*`) against its
natural-language specification.

The Rust code is shallowly embedded:

* Filesystem paths are modelled in two coordinated ways.  For the path-security
  validator (`operations.rs, validate_path_within_bases`) a path is a list of
  components of an absolute Unix path (each component a normal name or the
  literal `".."`; `"."` components are normalised away exactly as Rust's
  `Path::components` does).  The filesystem itself is a snapshot: a list
  `nodes` of existing nodes given by their canonical component paths.
  Canonicalization (`std::fs::canonicalize`) is modelled as resolution of
  `".."` components with the POSIX per-component existence check; symbolic
  links are not modelled.
* Subprocess execution (`run_git_command`, `Command::new("git")`) is modelled
  by an oracle `World.run` mapping the argument list and working directory to
  git's observed exit status / stdout / stderr; every spawned command is also
  recorded in an explicit effect trace, so that theorems can speak about which
  commands an operation issues and in which order.  Non-path effects
  (`create_dir_all`, the JSON `state.save()`) are likewise oracles plus trace
  entries.  The filesystem oracle is a snapshot: effects do not update it,
  which is sound here because no proved statement relies on observing an
  effect's result through a later filesystem query.
* `Uuid::new_v4` (the per-scan fresh worktree id) is nondeterministic and not
  claim-relevant; the `id` field of `WorktreeInfo` is therefore elided from
  the embedded record.  `Utc::now()` timestamps are passed as a `now`
  parameter.  Error message strings for OS errors whose text the embedding
  cannot know are fixed placeholder strings; no theorem depends on them.
-/

namespace Aristar

/-! ## String helpers

Computable re-implementations (over `String.data`) of the Rust string
operations the embedded code uses: `starts_with`, `split`, `trim`,
`contains`.  The core-library versions are avoided only because their
definitions do not reduce inside the kernel; these are extensionally the
same operations. -/

/-- Rust `str::starts_with` on strings. -/
def sStartsWith (s pre : String) : Bool :=
  List.isPrefixOf pre.data s.data

/-- Split a character list at every occurrence of `sep`, keeping empty
pieces (Rust `str::split(char)`). -/
def splitOnChar (sep : Char) : List Char → List (List Char)
  | [] => [[]]
  | c :: cs =>
    if c = sep then [] :: splitOnChar sep cs
    else
      match splitOnChar sep cs with
      | [] => [[c]]
      | p :: ps => (c :: p) :: ps

/-- Rust `str::trim`: strip whitespace from both ends. -/
def sTrim (s : String) : String :=
  String.mk (((s.data.dropWhile Char.isWhitespace).reverse.dropWhile
    Char.isWhitespace).reverse)

/-- Everything before the first occurrence of `sep` as a substring (the
`split(sep).collect()[0]` of Rust for a non-empty separator). -/
def takeUntilSub (sep : List Char) : List Char → List Char
  | [] => []
  | c :: cs =>
    if List.isPrefixOf sep (c :: cs) then []
    else c :: takeUntilSub sep cs

/-- Rust `str::contains(&str)` for a non-empty separator. -/
def containsSub (sep : List Char) : List Char → Bool
  | [] => sep.isEmpty
  | c :: cs => List.isPrefixOf sep (c :: cs) || containsSub sep cs

/-- Rust `str::lines()`: split at newlines, drop a final empty piece, strip a
trailing carriage return from each line. -/
def rustLines (s : String) : List String :=
  let parts := splitOnChar (Char.ofNat 10) s.data
  let parts := match parts.getLast? with
    | some [] => parts.dropLast
    | _ => parts
  parts.map (fun l =>
    String.mk (if l.getLast? = some (Char.ofNat 13) then l.dropLast else l))

/-! ## Path model (component lists) -/

/-- A path of an absolute Unix path: its components below the root. -/
abbrev PathC := List String

/-- Render a component path as an absolute path string (for error messages and
for comparing canonical paths, mirroring `to_string_lossy`). -/
def pathToStr (p : PathC) : String :=
  match p with
  | [] => "/"
  | _ => String.mk (p.foldl (fun acc c => acc ++ Char.ofNat 47 :: c.data) [])

/-- Components of an absolute path string, dropping empty and `"."` segments
exactly as Rust's `Path::components` normalisation does. -/
def strToPath (s : String) : PathC :=
  ((splitOnChar (Char.ofNat 47) s.data).map String.mk).filter
    (fun c => !(c == "" || c == "."))

/-- A node of the filesystem snapshot exists; the root always exists. -/
def existsNode (nodes : List PathC) (p : PathC) : Bool :=
  p = [] || nodes.contains p

/-- Component-by-component path resolution starting from the already-resolved
path `cur`: a `".."` pops a component (`/.. = /`), any other component
descends.  Each intermediate resolved path must exist (POSIX traversal), so
resolution fails with `none` as soon as a missing node is crossed.  This
models both `Path::exists` (success of resolution) and
`std::fs::canonicalize` (the resolved value) for a symlink-free snapshot. -/
def canonFrom (nodes : List PathC) (cur : PathC) : List String → Option PathC
  | [] => some cur
  | c :: rest =>
    let next := if c = ".." then cur.dropLast else cur ++ [c]
    if existsNode nodes next then canonFrom nodes next rest else none

/-- Canonicalize a component path (`std::fs::canonicalize`). -/
def canonicalize (nodes : List PathC) (p : PathC) : Option PathC :=
  canonFrom nodes [] p

/-- Existence of a path (`Path::exists`). -/
def pexists (nodes : List PathC) (p : PathC) : Bool :=
  (canonicalize nodes p).isSome

/-- Textual parent of a path (`Path::parent`): drops the last component, with
`none` at the root. -/
def parentC (p : PathC) : Option PathC :=
  match p with
  | [] => none
  | _ :: _ => some p.dropLast

/-- Final component of a path (`Path::file_name`): `none` for the root or for
a path ending in `".."`. -/
def fileNameC (p : PathC) : Option String :=
  match p.getLast? with
  | none => none
  | some c => if c = ".." then none else some c

/-- Walk up a reversed path to the nearest existing ancestor; dropping the
head of the reversed component list is `Path::parent`.  `none` mirrors the
`"Cannot find existing ancestor directory"` error of the loop. -/
def findAncestorAux (nodes : List PathC) : List String → Option PathC
  | [] => if pexists nodes [] then some [] else none
  | c :: rest =>
    if pexists nodes (c :: rest).reverse then some (c :: rest).reverse
    else findAncestorAux nodes rest

/-- Walk up a path to its nearest existing ancestor (the `while
!ancestor.exists()` loop in `validate_path_within_bases`). -/
def findAncestor (nodes : List PathC) (p : PathC) : Option PathC :=
  findAncestorAux nodes p.reverse

/-- Textual prefix strip with fallback
(`parent.strip_prefix(&ancestor).unwrap_or(parent)`). -/
def dropBase (p base : PathC) : PathC :=
  if List.isPrefixOf base p then p.drop base.length else p

/-- Membership test of a candidate under the allowed bases: some base
canonicalizes and its canonical form is a component-wise prefix of `q`
(`base.canonicalize().ok().map(|cb| q.starts_with(&cb)).unwrap_or(false)`). -/
def baseMatches (nodes : List PathC) (allowed_bases : List PathC) (q : PathC) : Bool :=
  allowed_bases.any (fun base =>
    match canonicalize nodes base with
    | some cb => List.isPrefixOf cb q
    | none => false)

/-- Embedding of `validate_path_within_bases`
(`src-tauri/src/worktrees/operations.rs`, lines 27-85). -/
def validate_path_within_bases (nodes : List PathC) (path : PathC)
    (allowed_bases : List PathC) : Except String PathC :=
  let checked : Except String PathC :=
    if pexists nodes path then
      match canonicalize nodes path with
      | some cp => .ok cp
      | none => .error "Failed to resolve path"
    else
      match parentC path with
      | none => .error "Path has no parent directory"
      | some parent =>
        match fileNameC path with
        | none => .error "Path has no filename"
        | some filename =>
          if !pexists nodes parent then
            match findAncestor nodes parent with
            | none => .error "Cannot find existing ancestor directory"
            | some ancestor =>
              match canonicalize nodes ancestor with
              | none => .error "Failed to resolve ancestor"
              | some canonical_ancestor =>
                if !baseMatches nodes allowed_bases canonical_ancestor then
                  .error ("Path traversal detected: " ++ pathToStr path ++
                    " is not within allowed directories")
                else
                  .ok (canonical_ancestor ++ dropBase parent ancestor ++ [filename])
          else
            match canonicalize nodes parent with
            | none => .error "Failed to resolve parent"
            | some canonical_parent => .ok (canonical_parent ++ [filename])
  match checked with
  | .error e => .error e
  | .ok check_path =>
    if !baseMatches nodes allowed_bases check_path then
      .error ("Path traversal detected: " ++ pathToStr path ++
        " is not within allowed directories")
    else
      .ok check_path

/-- Pure textual resolution of a component path (`".."` pops a component,
`/.. = /`), with no existence checking: the location a path refers to once
the missing directories are created.  Used only to state where an accepted
candidate would actually land. -/
def resolvePure (p : PathC) : PathC :=
  p.foldl (fun cur c => if c = ".." then cur.dropLast else cur ++ [c]) []

/-! ## Custom executable command validation
(`src-tauri/src/worktrees/external_apps.rs`, `validate_custom_command`) -/

/-- The fixed allow-list of absolute prefixes for custom commands. -/
def allowed_command_roots : List String :=
  ["/usr/bin/", "/usr/local/bin/", "/opt/homebrew/bin/", "/Applications/",
   "/System/Applications/"]

/-- The shell-metacharacter denylist, by code point: pipe, semicolon,
ampersand, dollar, backtick, parentheses, braces, newline, carriage return,
angle brackets. -/
def forbidden_chars : List Char :=
  [Char.ofNat 124, Char.ofNat 59, Char.ofNat 38, Char.ofNat 36, Char.ofNat 96,
   Char.ofNat 40, Char.ofNat 41, Char.ofNat 123, Char.ofNat 125,
   Char.ofNat 10, Char.ofNat 13, Char.ofNat 60, Char.ofNat 62]

/-- Embedding of `validate_custom_command`
(`src-tauri/src/worktrees/external_apps.rs`, lines 7-42).  The existence
check `Path::new(cmd).exists()` is the oracle `fsExists`. -/
def validate_custom_command (fsExists : String → Bool) (cmd : String) :
    Except String Unit :=
  if !sStartsWith cmd "/" then
    .error "Custom command must be an absolute path"
  else if !allowed_command_roots.any (fun p => sStartsWith cmd p) then
    .error "Custom command must be in one of the allowed locations"
  else if cmd.data.any (fun c => forbidden_chars.contains c) then
    .error "Custom command contains forbidden characters"
  else if !fsExists cmd then
    .error ("Custom command not found: " ++ cmd)
  else
    .ok ()

/-! ## Slug naming
(`src-tauri/src/agent_manager/task_operations.rs`, `slugify`,
`slugify_model_id`, and the worktree-name derivation of `create_task_impl`
line 162 / `add_agent_to_task_impl` line 30) -/

/-- The hyphen character. -/
def dashChar : Char := Char.ofNat 45

/-- Split a character list at every hyphen, keeping empty pieces
(Rust's `str::split('-')`). -/
def splitDash : List Char → List (List Char) :=
  splitOnChar dashChar

/-- Join pieces with single hyphens (Rust's `[&str]::join("-")`). -/
def joinDash : List (List Char) → List Char
  | [] => []
  | [p] => p
  | p :: q :: ps => p ++ dashChar :: joinDash (q :: ps)

/-- Shared slug pipeline: lower-case, map every non-alphanumeric character to
a hyphen (for `slugify_model_id` a hyphen is also kept as itself, which the
mapping already does), split at hyphens and drop the empty pieces.
`to_lowercase` and `is_alphanumeric` are modelled per-character on ASCII. -/
def slugPieces (cs : List Char) : List (List Char) :=
  (splitDash ((cs.map Char.toLower).map
    (fun c => if c.isAlphanum then c else dashChar))).filter (fun p => !p.isEmpty)

/-- Embedding of `slugify` (`task_operations.rs`, lines 43-52). -/
def slugify (s : String) : String :=
  String.mk (joinDash (slugPieces s.data))

/-- Embedding of `slugify_model_id` (`task_operations.rs`, lines 56-72):
keeps alphanumerics and hyphens, maps the rest to hyphens, then splits,
filters and rejoins exactly like `slugify`; since `slugify` also maps a
hyphen to a hyphen, the two pipelines coincide and share `slugPieces`. -/
def slugify_model_id (model_id : String) : String :=
  String.mk (joinDash ((splitDash ((model_id.data.map Char.toLower).map
    (fun c => if c.isAlphanum || c = dashChar then c else dashChar))).filter
      (fun p => !p.isEmpty)))

/-- The worktree directory name derived for an agent:
`format!("{}-{}", slugify(&name), slugify_model_id(&model.model_id))`
(`create_task_impl` line 162, `add_agent_to_task_impl` line 30). -/
def agentWorktreeName (name model_id : String) : String :=
  slugify name ++ "-" ++ slugify_model_id model_id

/-! ## The effect world

Oracle for the subprocess / filesystem environment, plus an explicit trace of
the effects an operation performs.  String-level path queries are answered
from the same snapshot `nodes` as the component-level validator. -/

/-- Captured output of a finished `git` subprocess. -/
structure GitOut where
  success : Bool
  stdout : String
  stderr : String
deriving Repr, DecidableEq

/-- One observable side effect: a spawned `git` command (argument list and
working directory), or a `create_dir_all`. -/
inductive Eff where
  | git (args : List String) (cwd : String)
  | mkdirAll (path : String)
deriving Repr, DecidableEq

/-- The environment: the filesystem snapshot, the user's home directory (as
components; `dirs::home_dir` returning `None` aborts the process and is
outside the model), the behaviour of spawned git commands (`Except.error` is
a spawn failure carrying its message), the outcome of `create_dir_all`, and
the outcome of the task store's `state.save()`. -/
structure World where
  nodes : List PathC
  home : PathC
  run : List String → String → Except String GitOut
  mkdirErr : String → Option String
  saveErr : Option String

/-- Canonicalize a path string against the snapshot. -/
def canonS (nodes : List PathC) (s : String) : Option String :=
  (canonicalize nodes (strToPath s)).map pathToStr

/-- String-level `Path::exists`. -/
def existsS (nodes : List PathC) (s : String) : Bool :=
  (canonS nodes s).isSome

/-- String-level `Path::parent` for absolute paths. -/
def parentS (s : String) : Option String :=
  match strToPath s with
  | [] => none
  | p => some (pathToStr p.dropLast)

/-- String-level `Path::file_name` for absolute paths. -/
def fileNameS (s : String) : Option String :=
  fileNameC (strToPath s)

/-- `Path::join` of an absolute base with a relative component string. -/
def joinS (base rel : String) : String :=
  base ++ "/" ++ rel

/-- Embedding of `run_git_command` (`operations.rs`, lines 145-158): spawn
failure propagates its message, non-zero exit propagates stderr. -/
def runGitE (w : World) (args : List String) (cwd : String) :
    Except String GitOut :=
  match w.run args cwd with
  | .error e => .error e
  | .ok out => if out.success then .ok out else .error out.stderr

/-- Embedding of `find_git_repo_root` (`operations.rs`, lines 563-601),
paired with its effect trace. -/
def find_git_repo_root (w : World) (path : String) :
    Except String String × List Eff :=
  let tr := [Eff.git ["rev-parse", "--git-dir"] path]
  match w.run ["rev-parse", "--git-dir"] path with
  | .error e => (.error e, tr)
  | .ok out =>
    if !out.success then (.error "No git repository found", tr)
    else
      let git_dir := sTrim out.stdout
      if git_dir == ".git" then
        match canonS w.nodes path with
        | some c => (.ok c, tr)
        | none => (.error "Failed to resolve path", tr)
      else if sStartsWith git_dir "/" then
        if containsSub "/worktrees/".data git_dir.data then
          (.ok (String.mk (takeUntilSub "/.git/worktrees/".data git_dir.data)), tr)
        else
          (.ok ((parentS git_dir).getD git_dir), tr)
      else
        (.ok ((parentS (joinS path git_dir)).getD path), tr)

/-! ## Worktree inventory parser
(`operations.rs`, `list_worktrees`, lines 252-394) -/

/-- Embedding of `WorktreeInfo` (`worktrees/types.rs`).  The `id` field (a
fresh `Uuid::new_v4` per scan, not claim-relevant) is elided. -/
structure WorktreeInfo where
  name : String
  path : String
  branch : Option String
  commit : Option String
  is_main : Bool
  is_locked : Bool
  lock_reason : Option String
  startup_script : Option String
  script_executed : Bool
  created_at : Int
deriving Repr, DecidableEq

/-- The parser's accumulated per-block state (the local `mut` variables of
`list_worktrees`). -/
structure PState where
  current_path : Option String
  current_commit : Option String
  worktree_branch : Option String
  is_locked : Bool
  lock_reason : Option String
  is_bare : Bool
deriving Repr, DecidableEq

/-- Initial parser state. -/
def initPS : PState :=
  ⟨none, none, none, false, none, false⟩

/-- One non-blank porcelain line updates the parser state
(the prefix dispatch of `list_worktrees`). -/
def updLine (st : PState) (line : String) : PState :=
  if sStartsWith line "worktree " then { st with current_path := some (line.drop 9) }
  else if sStartsWith line "HEAD " then { st with current_commit := some (line.drop 5) }
  else if sStartsWith line "branch " then { st with worktree_branch := some (line.drop 7) }
  else if line == "locked" then { st with is_locked := true }
  else if sStartsWith line "locked " then
    { st with is_locked := true, lock_reason := some (line.drop 7) }
  else if line == "bare" then { st with is_bare := true }
  else st

/-- Strip a `refs/heads/` prefix from a branch ref. -/
def stripRefsHeads (b : String) : String :=
  if sStartsWith b "refs/heads/" then b.drop 11 else b

/-- Build one inventory entry from a finished block (the `WorktreeInfo`
construction duplicated at the blank-line and end-of-input sites of
`list_worktrees`): `raw` is the `worktree ` line's path, `cpath` its
canonical form, `mp` the canonical repository path. -/
def mkEntry (mp raw cpath : String) (st : PState) : WorktreeInfo :=
  let is_main := cpath == mp
  { name := if is_main then "main" else (fileNameS raw).getD "worktree"
    path := cpath
    branch := st.worktree_branch.map stripRefsHeads
    commit := st.current_commit
    is_main := is_main
    is_locked := st.is_locked
    lock_reason := st.lock_reason
    startup_script := none
    script_executed := false
    created_at := 0 }

/-- The parsing loop of `list_worktrees`: processes the porcelain lines,
finalizing a block at each blank line and once more at end of input.  Blocks
whose path no longer exists are silently skipped; `bare` blocks are never
surfaced; a worktree path that fails to canonicalize aborts with an error. -/
def lwGo (w : World) (mp : String) :
    List String → PState → List WorktreeInfo → Except String (List WorktreeInfo)
  | [], st, acc =>
    match st.current_path with
    | none => .ok acc
    | some p =>
      if existsS w.nodes p then
        match canonS w.nodes p with
        | none => .error "Failed to resolve worktree path"
        | some cpath =>
          if st.is_bare then .ok acc
          else .ok (acc ++ [mkEntry mp p cpath st])
      else .ok acc
  | line :: rest, st, acc =>
    if line == "" then
      match st.current_path with
      | none => lwGo w mp rest { st with is_locked := false, is_bare := false } acc
      | some p =>
        if existsS w.nodes p then
          match canonS w.nodes p with
          | none => .error "Failed to resolve worktree path"
          | some cpath =>
            if st.is_bare then
              lwGo w mp rest
                { current_path := none, current_commit := st.current_commit,
                  worktree_branch := none, is_locked := false,
                  lock_reason := st.lock_reason, is_bare := false } acc
            else
              lwGo w mp rest initPS (acc ++ [mkEntry mp p cpath st])
        else
          lwGo w mp rest initPS acc
    else
      lwGo w mp rest (updLine st line) acc

/-- Embedding of `list_worktrees` (`operations.rs`, lines 252-394), paired
with its effect trace. -/
def list_worktrees (w : World) (repo_path : String) :
    Except String (List WorktreeInfo) × List Eff :=
  let tr := [Eff.git ["worktree", "list", "--porcelain"] repo_path]
  match runGitE w ["worktree", "list", "--porcelain"] repo_path with
  | .error e => (.error e, tr)
  | .ok out =>
    match canonS w.nodes repo_path with
    | none => (.error "Failed to resolve path", tr)
    | some main_path => (lwGo w main_path (rustLines out.stdout) initPS [], tr)

/-! ## Worktree removal (`operations.rs`, `remove_worktree`, lines 454-498) -/

/-- Branch names never deleted after a worktree removal. -/
def protected_branches : List String :=
  ["main", "master", "develop", "development"]

/-- Embedding of `remove_worktree`, paired with its effect trace.  The final
`git branch -d|-D` is issued with its result discarded (`let _ = ...`). -/
def remove_worktree (w : World) (path : String) (force delete_branch : Bool) :
    Except String Unit × List Eff :=
  match find_git_repo_root w path with
  | (.error e, tr0) => (.error e, tr0)
  | (.ok repo_path, tr0) =>
    match canonS w.nodes path with
    | none => (.error "Failed to resolve path", tr0)
    | some path_canonical =>
      let branchStep : Except String (Option String) × List Eff :=
        if delete_branch then
          match list_worktrees w repo_path with
          | (.error e, tr1) => (.error e, tr1)
          | (.ok ws, tr1) =>
            (.ok ((ws.find? (fun x => x.path == path_canonical)).bind
              (fun x => x.branch)), tr1)
        else (.ok none, [])
      match branchStep with
      | (.error e, tr1) => (.error e, tr0 ++ tr1)
      | (.ok branch_to_delete, tr1) =>
        let args := ["worktree", "remove", path_canonical] ++
          (if force then ["--force", "--force"] else [])
        let tr2 := tr0 ++ tr1 ++ [Eff.git args repo_path]
        match runGitE w args repo_path with
        | .error e => (.error e, tr2)
        | .ok _ =>
          match branch_to_delete with
          | none => (.ok (), tr2)
          | some branch =>
            if protected_branches.contains branch then (.ok (), tr2)
            else
              let delete_args :=
                if force then ["branch", "-D", branch] else ["branch", "-d", branch]
              (.ok (), tr2 ++ [Eff.git delete_args repo_path])

/-! ## Worktree creation at a caller-chosen path
(`operations.rs`, `create_worktree_at_path`, lines 609-652) -/

/-- Embedding of `get_allowed_worktree_bases` (`operations.rs`, lines
91-100): the managed root `~/.aristar-worktrees` and the home directory. -/
def get_allowed_worktree_bases (w : World) : List PathC :=
  [w.home ++ [".aristar-worktrees"], w.home]

/-- Embedding of `create_worktree_at_path`, paired with its effect trace.
The validator's canonical result is discarded (only its error propagates),
and the raw `destination_path` string is what reaches `git worktree add`,
exactly as in the source. -/
def create_worktree_at_path (w : World) (repo_path destination_path : String)
    (branch_or_commit : Option String) : Except String String × List Eff :=
  match canonS w.nodes repo_path with
  | none => (.error "Failed to resolve repo path", [])
  | some repo_path_str =>
    match validate_path_within_bases w.nodes (strToPath destination_path)
        (get_allowed_worktree_bases w) with
    | .error e => (.error e, [])
    | .ok _ =>
      let mkStep : Except String Unit × List Eff :=
        match parentS destination_path with
        | none => (.ok (), [])
        | some parent =>
          match w.mkdirErr parent with
          | some e => (.error ("Failed to create parent directory: " ++ e),
              [Eff.mkdirAll parent])
          | none => (.ok (), [Eff.mkdirAll parent])
      match mkStep with
      | (.error e, tr0) => (.error e, tr0)
      | (.ok _, tr0) =>
        let args := ["worktree", "add", destination_path, "--detach"] ++
          branch_or_commit.toList
        let tr1 := tr0 ++ [Eff.git args repo_path_str]
        match runGitE w args repo_path_str with
        | .error e => (.error e, tr1)
        | .ok _ =>
          match canonS w.nodes destination_path with
          | none => (.error "Failed to resolve created worktree path", tr1)
          | some created => (.ok created, tr1)

/-! ## Task and agent data model

The record layouts live in `src-tauri/src/agent_manager/types.rs`, which is
not among the provided sources; the fields below are reconstructed from
every use in `agent_operations.rs` / `task_operations.rs` and from the spec's
data model (spec.md sections 3 and 4.6: status enum
`Idle|Running|Paused|Completed|Failed`, `accepted` flag, `agent-N` ids). -/

/-- Agent/task status enum (shape from the spec; only `Idle` is ever
constructed by the embedded operations). -/
inductive AgentStatus where
  | Idle
  | Running
  | Paused
  | Completed
  | Failed
deriving Repr, DecidableEq

/-- One model's attempt at a task (`TaskAgent`). -/
structure TaskAgent where
  id : String
  model_id : String
  provider_id : String
  agent_type : Option String
  worktree_path : String
  session_id : Option String
  status : AgentStatus
  accepted : Bool
  created_at : Int
deriving Repr, DecidableEq

/-- A task with its agents (`Task`; `status` shares the enum shape). -/
structure Task where
  id : String
  name : String
  source_type : String
  source_branch : Option String
  source_commit : Option String
  source_repo_path : String
  agent_type : String
  status : AgentStatus
  created_at : Int
  updated_at : Int
  agents : List TaskAgent
deriving Repr, DecidableEq

/-- The in-memory task store (`TaskStoreData.tasks`). -/
abbrev TaskStore := List Task

/-- Update the first element satisfying `p` (the effect of mutating the
result of `iter_mut().find(..)` in place). -/
def updateFirst (p : α → Bool) (f : α → α) : List α → List α
  | [] => []
  | x :: xs => if p x then f x :: xs else x :: updateFirst p f xs

/-- Path of the managed root `~/.aristar-worktrees`
(`core/persistence.rs`, `get_aristar_worktrees_base`). -/
def aristarBaseS (w : World) : String :=
  pathToStr (w.home ++ [".aristar-worktrees"])

/-- Path of a task's folder `~/.aristar-worktrees/tasks/{task-id}`
(`task_operations.rs`, `get_task_folder_path`). -/
def get_task_folder_path (w : World) (task_id : String) : String :=
  aristarBaseS w ++ "/tasks/" ++ task_id

/-! ## Agent operations (`agent_manager/agent_operations.rs`)

Each operation returns its `Result`, the post-state of the in-memory store
(which is mutated in place under the lock, so it changes even on some error
paths), whether `state.save()` was invoked (the persisted file rewritten),
and the git effect trace where relevant. -/

/-- Embedding of `accept_agent_impl` (`agent_operations.rs`, lines 169-204):
clear `accepted` on every agent of the task, then set it on the first agent
with the given id; the store is mutated before the agent lookup can fail. -/
def accept_agent_impl (w : World) (store : TaskStore)
    (task_id agent_id : String) (now : Int) :
    Except String Unit × TaskStore × Bool :=
  match store.find? (fun t => t.id == task_id) with
  | none => (.error ("Task not found: " ++ task_id), store, false)
  | some task =>
    let cleared := task.agents.map (fun a => { a with accepted := false })
    match cleared.find? (fun a => a.id == agent_id) with
    | none =>
      (.error ("Agent not found: " ++ agent_id),
       updateFirst (fun t => t.id == task_id)
         (fun t => { t with agents := cleared }) store,
       false)
    | some _ =>
      let agents' := updateFirst (fun a => a.id == agent_id)
        (fun a => { a with accepted := true }) cleared
      let store' := updateFirst (fun t => t.id == task_id)
        (fun t => { t with agents := agents', updated_at := now }) store
      match w.saveErr with
      | none => (.ok (), store', true)
      | some e => (.error e, store', true)

/-- Embedding of `cleanup_unaccepted_agents_impl` (`agent_operations.rs`,
lines 289-331): best-effort removal of every unaccepted agent's worktree
(each `remove_worktree` result is discarded), then retain only accepted
agents. -/
def cleanup_unaccepted_agents_impl (w : World) (store : TaskStore)
    (task_id : String) (now : Int) :
    Except String Unit × TaskStore × List Eff :=
  match store.find? (fun t => t.id == task_id) with
  | none => (.error ("Task not found: " ++ task_id), store, [])
  | some task =>
    let agents_to_cleanup := (task.agents.filter (fun a => !a.accepted)).map
      (fun a => (a.id, a.worktree_path))
    let tr := agents_to_cleanup.foldl (fun acc x =>
      if existsS w.nodes x.2 then acc ++ (remove_worktree w x.2 true false).2
      else acc) []
    let store' := updateFirst (fun t => t.id == task_id)
      (fun t =>
        let kept := t.agents.filter (fun a => a.accepted)
        { t with agents := kept, updated_at := now }) store
    match w.saveErr with
    | none => (.ok (), store', tr)
    | some e => (.error e, store', tr)

/-- Embedding of `add_agent_to_task_impl` (`agent_operations.rs`, lines
12-67): the new agent id is `agent-{N+1}` for the current agent count `N`;
the worktree is created inside the task folder before the agent is pushed,
and a creation failure leaves the store untouched. -/
def add_agent_to_task_impl (w : World) (store : TaskStore)
    (task_id model_id provider_id : String) (agent_type : Option String)
    (now : Int) : Except String Task × TaskStore × List Eff :=
  match store.find? (fun t => t.id == task_id) with
  | none => (.error ("Task not found: " ++ task_id), store, [])
  | some task =>
    let agent_num := task.agents.length + 1
    let agent_id := "agent-" ++ toString agent_num
    let worktree_name := agentWorktreeName task.name model_id
    let worktree_path := get_task_folder_path w task_id ++ "/" ++ worktree_name
    let source_ref :=
      if task.source_type == "commit" then task.source_commit
      else task.source_branch
    match create_worktree_at_path w task.source_repo_path worktree_path
        source_ref with
    | (.error e, tr) => (.error e, store, tr)
    | (.ok created_path, tr) =>
      let agent : TaskAgent :=
        { id := agent_id, model_id := model_id, provider_id := provider_id,
          agent_type := agent_type, worktree_path := created_path,
          session_id := none, status := AgentStatus.Idle, accepted := false,
          created_at := now }
      let task' :=
        { task with agents := task.agents ++ [agent], updated_at := now }
      let store' := updateFirst (fun t => t.id == task_id) (fun _ => task') store
      match w.saveErr with
      | none => (.ok task', store', tr)
      | some e => (.error e, store', tr)

/-- Embedding of `remove_agent_from_task_impl` (`agent_operations.rs`, lines
70-108): retain every agent whose id differs, then optionally force-remove
the worktree (a removal failure propagates, after the store was already
mutated). -/
def remove_agent_from_task_impl (w : World) (store : TaskStore)
    (task_id agent_id : String) (delete_worktree : Bool) (now : Int) :
    Except String Unit × TaskStore × List Eff :=
  match store.find? (fun t => t.id == task_id) with
  | none => (.error ("Task not found: " ++ task_id), store, [])
  | some task =>
    match task.agents.find? (fun a => a.id == agent_id) with
    | none => (.error ("Agent not found: " ++ agent_id), store, [])
    | some agent =>
      let worktree_path := agent.worktree_path
      let store' := updateFirst (fun t => t.id == task_id)
        (fun t =>
          let kept := t.agents.filter (fun a => !(a.id == agent_id))
          { t with agents := kept, updated_at := now }) store
      let rmStep : Except String Unit × List Eff :=
        if delete_worktree && existsS w.nodes worktree_path then
          remove_worktree w worktree_path true false
        else (.ok (), [])
      match rmStep with
      | (.error e, tr) => (.error e, store', tr)
      | (.ok _, tr) =>
        match w.saveErr with
        | none => (.ok (), store', tr)
        | some e => (.error e, store', tr)

/-! ## Concrete instances used to evaluate the embedded code -/

/-- Snapshot for the validator escape: `/tmp/allowed` and `/etc` exist,
`/tmp/allowed/ghost` does not. -/
def escNodes : List PathC := [["tmp"], ["tmp", "allowed"], ["etc"]]

/-- The escaping candidate `/tmp/allowed/ghost/../../etc/pwned`. -/
def escCand : PathC := ["tmp", "allowed", "ghost", "..", "..", "etc", "pwned"]

/-- A world whose repository is bare: `git worktree list --porcelain` reports
a single block marked `bare`. -/
def bareWorld : World :=
  { nodes := [["srv"], ["srv", "bare"]]
    home := ["srv"]
    run := fun args _ =>
      if args = ["worktree", "list", "--porcelain"] then
        .ok ⟨true, "worktree /srv/bare\nbare\n", ""⟩
      else .error "unexpected command"
    mkdirErr := fun _ => none
    saveErr := none }

/-- A world with an ordinary repository `/home/u/repo` and one linked
worktree `/home/u/wt1` on branch `feat`. -/
def repoWorld : World :=
  { nodes := [["home"], ["home", "u"], ["home", "u", "repo"], ["home", "u", "wt1"]]
    home := ["home", "u"]
    run := fun args _ =>
      if args = ["worktree", "list", "--porcelain"] then
        .ok ⟨true,
          "worktree /home/u/repo\nHEAD aaa\nbranch refs/heads/main\n\nworktree /home/u/wt1\nHEAD bbb\nbranch refs/heads/feat\n",
          ""⟩
      else .error "unexpected command"
    mkdirErr := fun _ => none
    saveErr := none }

/-- A world for exercising `remove_worktree` on the worktree `/home/u/wt1`
(branch `feat`): `rev-parse`, `worktree list` and the double-force
`worktree remove` succeed, while every other command — in particular the
trailing `git branch -D feat` — fails to spawn. -/
def removeWorld : World :=
  { nodes := [["home"], ["home", "u"], ["home", "u", "wt1"]]
    home := ["home", "u"]
    run := fun args _ =>
      if args = ["rev-parse", "--git-dir"] then .ok ⟨true, ".git\n", ""⟩
      else if args = ["worktree", "list", "--porcelain"] then
        .ok ⟨true, "worktree /home/u/wt1\nHEAD abc123\nbranch refs/heads/feat\n", ""⟩
      else if args = ["worktree", "remove", "/home/u/wt1", "--force", "--force"] then
        .ok ⟨true, "", ""⟩
      else .error "spawn failure"
    mkdirErr := fun _ => none
    saveErr := none }

/-- A world where the destination `/etc/x` lies outside both allowed bases
(`/home/u/.aristar-worktrees` and `/home/u`). -/
def escapeDestWorld : World :=
  { nodes := [["home"], ["home", "u"], ["etc"]]
    home := ["home", "u"]
    run := fun _ _ => .ok ⟨true, "", ""⟩
    mkdirErr := fun _ => none
    saveErr := none }

/-- A minimal world for the in-memory agent operations: saving succeeds, no
path exists, every git command fails to spawn. -/
def agentWorld : World :=
  { nodes := []
    home := ["h"]
    run := fun _ _ => .error "spawn failure"
    mkdirErr := fun _ => none
    saveErr := none }

/-- A world in which agent-worktree creation succeeds: the task folder and
the derived worktree destination exist under the managed root, and every git
command succeeds. -/
def addAgentWorld : World :=
  { nodes := [["h"], ["h", ".aristar-worktrees"], ["h", ".aristar-worktrees", "tasks"],
              ["h", ".aristar-worktrees", "tasks", "t1"],
              ["h", ".aristar-worktrees", "tasks", "t1", "fix-m1"],
              ["h", "repo"]]
    home := ["h"]
    run := fun _ _ => .ok ⟨true, "", ""⟩
    mkdirErr := fun _ => none
    saveErr := none }

/-- A sample agent for the store-level witnesses. -/
def sampleAgent (i : Nat) (acc : Bool) : TaskAgent :=
  { id := "agent-" ++ toString i, model_id := "m1", provider_id := "p1",
    agent_type := none, worktree_path := "/h/w" ++ toString i,
    session_id := none, status := AgentStatus.Idle, accepted := acc,
    created_at := 0 }

/-- A sample three-agent task (second agent currently accepted). -/
def sampleTask : Task :=
  { id := "t1", name := "Fix", source_type := "branch",
    source_branch := some "main", source_commit := none,
    source_repo_path := "/h/repo", agent_type := "build",
    status := AgentStatus.Idle, created_at := 0, updated_at := 0,
    agents := [sampleAgent 1 false, sampleAgent 2 true, sampleAgent 3 false] }

/-- A sample two-agent task (neither accepted), for the id-reuse scenario. -/
def twoAgentTask : Task :=
  { id := "t1", name := "Fix", source_type := "branch",
    source_branch := some "main", source_commit := none,
    source_repo_path := "/h/repo", agent_type := "build",
    status := AgentStatus.Idle, created_at := 0, updated_at := 0,
    agents := [sampleAgent 1 false, sampleAgent 2 false] }

/-- A world for the cleanup witness: the unaccepted agents' worktree paths
`/h/w1` and `/h/w3` exist, saving succeeds, and every git command fails to
spawn — so each worktree removal fails and is swallowed. -/
def cleanupWorld : World :=
  { nodes := [["h"], ["h", "w1"], ["h", "w3"]]
    home := ["h"]
    run := fun _ _ => .error "spawn failure"
    mkdirErr := fun _ => none
    saveErr := none }

/-- The per-entry soundness property of the inventory parser: `is_main`
holds exactly of entries whose canonical path equals the canonical
repository path; a main entry is named `"main"`; every other entry is named
by the final path component of the raw worktree path it was parsed from
(whose canonical form is the entry's path). -/
def EntrySpec (w : World) (mp : String) (e : WorktreeInfo) : Prop :=
  e.is_main = (e.path == mp)
  ∧ (e.is_main = true → e.name = "main")
  ∧ (e.is_main = false →
      ∃ raw, canonS w.nodes raw = some e.path
        ∧ e.name = (fileNameS raw).getD "worktree")

/-- The inventory `list_worktrees` returns in `repoWorld`. -/
def repoWorldEntries : List WorktreeInfo :=
  [⟨"main", "/home/u/repo", some "main", some "aaa", true, false, none, none,
    false, 0⟩,
   ⟨"wt1", "/home/u/wt1", some "feat", some "bbb", false, false, none, none,
    false, 0⟩]

/-! # Theorems -/

/-- C1: refuted on the code — `validate_path_within_bases` accepts the
non-existent candidate `/tmp/allowed/ghost/../../etc/pwned` against the
single allowed base `/tmp/allowed` even though the candidate's resolved
location `/tmp/etc/pwned` is outside every allowed base.  The nearest
existing ancestor `/tmp/allowed` passes the base check, the non-existent
suffix `ghost/../../etc/pwned` is rejoined textually without resolving its
`..` components, and the final check only compares textual components, so
the reconstructed path slips through.  This contradicts the claim's
guarantee (and the function's own documentation) that no non-existent
candidate whose resolved location escapes every base is ever accepted. -/
theorem validate_path_traversal_escape :
    validate_path_within_bases escNodes escCand [["tmp", "allowed"]] =
      Except.ok ["tmp", "allowed", "ghost", "..", "..", "etc", "pwned"]
    ∧ pexists escNodes escCand = false
    ∧ resolvePure escCand = ["tmp", "etc", "pwned"]
    ∧ baseMatches escNodes [["tmp", "allowed"]] (resolvePure escCand) = false :=
  ⟨rfl, rfl, rfl, rfl⟩

/-- C2: `validate_custom_command` accepts a command string exactly when the
command is an absolute path, starts with one of the allow-listed prefixes,
contains no character of the shell-metacharacter denylist, and exists on
disk; it rejects the command whenever any of the four checks fails. -/
theorem validate_custom_command_spec (fsExists : String → Bool) (cmd : String) :
    validate_custom_command fsExists cmd = Except.ok () ↔
      (sStartsWith cmd "/" = true
       ∧ (∃ p ∈ allowed_command_roots, sStartsWith cmd p = true)
       ∧ (∀ c ∈ cmd.data, c ∉ forbidden_chars)
       ∧ fsExists cmd = true) := by
  unfold validate_custom_command
  cases h1 : sStartsWith cmd "/" with
  | false => simp [h1]
  | true =>
    cases h2 : allowed_command_roots.any (fun p => sStartsWith cmd p) with
    | false => simp_all [List.any_eq_false]
    | true =>
      cases h3 : cmd.data.any (fun c => forbidden_chars.contains c) with
      | true => simp_all [List.any_eq_true]
      | false =>
        cases h4 : fsExists cmd with
        | false => simp_all [List.any_eq_false]
        | true => simp_all [List.any_eq_true, List.any_eq_false]

/-- C2 witness: on a filesystem where exactly `/usr/bin/env` exists, the
validator accepts `/usr/bin/env` and rejects `/usr/bin/echo; rm -rf /`. -/
theorem validate_custom_command_spec_witness :
    validate_custom_command (fun s => s == "/usr/bin/env") "/usr/bin/env" =
      Except.ok ()
    ∧ ¬ validate_custom_command (fun s => s == "/usr/bin/env")
        "/usr/bin/echo; rm -rf /" = Except.ok () := by
  constructor
  · exact (validate_custom_command_spec _ _).mpr
      ⟨by decide, by decide, by decide, by decide⟩
  · intro h
    obtain ⟨-, -, h3, -⟩ := (validate_custom_command_spec _ _).mp h
    exact h3 (Char.ofNat 59) (by decide) (by decide)

/-! ### Slug lemmas (C8) -/

/-- The character mapping of `slugify_model_id` coincides with that of
`slugify`: a hyphen is non-alphanumeric, so both send it to a hyphen. -/
lemma slug_char_map_eq :
    (fun c : Char => if c.isAlphanum || c = dashChar then c else dashChar) =
      (fun c : Char => if c.isAlphanum then c else dashChar) := by
  funext c
  by_cases h : c.isAlphanum
  · simp [h]
  · by_cases h2 : c = dashChar <;> simp [h, h2]

/-- `slugify_model_id` and `slugify` are the same function. -/
lemma slugify_model_id_eq (s : String) : slugify_model_id s = slugify s := by
  unfold slugify_model_id slugify slugPieces splitDash
  rw [slug_char_map_eq]

/-- Splitting never yields an empty list of pieces. -/
lemma splitDash_ne_nil (l : List Char) : splitDash l ≠ [] := by
  unfold splitDash
  induction l with
  | nil => simp [splitOnChar]
  | cons c cs ih =>
    simp only [splitOnChar]
    split
    · simp
    · cases h : splitOnChar dashChar cs with
      | nil => simp
      | cons p ps => simp

/-- Splitting distributes over a hyphen-separated concatenation. -/
lemma splitDash_append (a b : List Char) :
    splitDash (a ++ dashChar :: b) = splitDash a ++ splitDash b := by
  induction a with
  | nil => simp [splitDash, splitOnChar]
  | cons c cs ih =>
    by_cases h : c = dashChar
    · simp only [List.cons_append, List.append_eq, splitDash, splitOnChar, h,
        if_true] at *
      rw [ih]
    · have hne := splitDash_ne_nil cs
      obtain ⟨p, ps, hps⟩ := List.exists_cons_of_ne_nil hne
      simp only [List.cons_append, List.append_eq, splitDash, splitOnChar, h,
        if_false] at *
      rw [ih, hps]
      simp

/-- The slug pipeline distributes over a hyphen-separated concatenation. -/
lemma slugPieces_append (a b : List Char) :
    slugPieces (a ++ dashChar :: b) = slugPieces a ++ slugPieces b := by
  unfold slugPieces
  simp only [List.map_append, List.map_cons]
  rw [show Char.toLower dashChar = dashChar from by decide]
  rw [show (if dashChar.isAlphanum then dashChar else dashChar) = dashChar from by decide]
  rw [splitDash_append, List.filter_append]

/-- Joining distributes over concatenation of two non-empty piece lists. -/
lemma joinDash_append (A B : List (List Char)) (hA : A ≠ []) (hB : B ≠ []) :
    joinDash (A ++ B) = joinDash A ++ dashChar :: joinDash B := by
  induction A with
  | nil => exact absurd rfl hA
  | cons p ps ih =>
    cases ps with
    | nil =>
      obtain ⟨q, qs, hq⟩ := List.exists_cons_of_ne_nil hB
      subst hq
      simp [joinDash]
    | cons p2 ps2 =>
      have hih := ih (by simp)
      show p ++ dashChar :: joinDash ((p2 :: ps2) ++ B) =
        (p ++ dashChar :: joinDash (p2 :: ps2)) ++ dashChar :: joinDash B
      rw [hih]
      simp [List.append_assoc]

/-- A non-empty slug means the piece list is non-empty. -/
lemma slugPieces_ne_nil_of_slugify (s : String) (h : slugify s ≠ "") :
    slugPieces s.data ≠ [] := by
  intro hn
  apply h
  unfold slugify
  rw [hn]
  rfl

/-- C8: refuted on the code — for the task name `"!!!"` (which passes
`create_task`'s non-empty-name validation) and model `"gpt-4"`, the code
derives the worktree name `slugify("!!!") + "-" + slugify_model_id("gpt-4")
= "-gpt-4"`, whereas slugifying the combined string `"!!!-gpt-4"` would trim
the leading hyphen and give `"gpt-4"`. -/
theorem agent_worktree_name_counterexample :
    agentWorktreeName "!!!" "gpt-4" = "-gpt-4"
    ∧ slugify ("!!!" ++ "-" ++ "gpt-4") = "gpt-4"
    ∧ ("-gpt-4" : String) ≠ "gpt-4"
    ∧ sTrim "!!!" ≠ "" :=
  ⟨rfl, rfl, by decide, by decide⟩

/-- C8 (amended): `create_task` derives the agent worktree name as
`slugify(task-name) + "-" + slugify_model_id(model-id)`; whenever both
individual slugs are non-empty this equals slugifying the combined string
`<task-name>-<model-id>` (lower-cased, non-alphanumeric runs collapsed to
single hyphens, leading/trailing hyphens trimmed), and in particular
`"Refactor Auth"` with models `"claude-sonnet-4"` and `"gpt-4"` yields
`refactor-auth-claude-sonnet-4` and `refactor-auth-gpt-4`. -/
theorem agent_worktree_name_spec :
    agentWorktreeName "Refactor Auth" "claude-sonnet-4" =
      "refactor-auth-claude-sonnet-4"
    ∧ agentWorktreeName "Refactor Auth" "gpt-4" = "refactor-auth-gpt-4"
    ∧ ∀ name model_id : String, slugify name ≠ "" →
        slugify_model_id model_id ≠ "" →
        agentWorktreeName name model_id = slugify (name ++ "-" ++ model_id) := by
  refine ⟨rfl, rfl, ?_⟩
  intro n m h1 h2
  rw [slugify_model_id_eq] at h2
  have hA := slugPieces_ne_nil_of_slugify n h1
  have hB := slugPieces_ne_nil_of_slugify m h2
  unfold agentWorktreeName
  rw [slugify_model_id_eq]
  unfold slugify
  have hdata : (n ++ "-" ++ m).data = n.data ++ dashChar :: m.data := by
    rw [String.data_append, String.data_append, List.append_assoc]
    rfl
  rw [hdata, slugPieces_append, joinDash_append _ _ hA hB]
  rw [show ("-" : String) = String.mk [dashChar] from rfl]
  rw [show ∀ a b : List Char, String.mk a ++ String.mk b = String.mk (a ++ b) from
    fun _ _ => rfl]
  rw [show ∀ a b : List Char, String.mk a ++ String.mk b = String.mk (a ++ b) from
    fun _ _ => rfl]
  congr 1
  simp

/-- C8 witness: for `"My Task!"` and model `"GPT 4"` both slugs are
non-empty and the derived name coincides with slugifying the combined
string. -/
theorem agent_worktree_name_spec_witness :
    slugify "My Task!" ≠ ""
    ∧ slugify_model_id "GPT 4" ≠ ""
    ∧ agentWorktreeName "My Task!" "GPT 4" =
        slugify ("My Task!" ++ "-" ++ "GPT 4") :=
  ⟨by decide, by decide,
   agent_worktree_name_spec.2.2 "My Task!" "GPT 4" (by decide) (by decide)⟩

/-! ### Inventory parser lemmas (C3) -/

/-- Every entry the parser pushes satisfies `EntrySpec`: its construction
site computes `is_main` from the canonical-path comparison and the name
accordingly. -/
lemma mkEntry_spec (w : World) (mp raw cpath : String) (st : PState)
    (h : canonS w.nodes raw = some cpath) :
    EntrySpec w mp (mkEntry mp raw cpath st) := by
  refine ⟨by simp [mkEntry], ?_, ?_⟩
  · intro hm
    simp only [mkEntry] at hm ⊢
    simp [hm]
  · intro hm
    simp only [mkEntry] at hm ⊢
    refine ⟨raw, ?_, ?_⟩
    · simpa using h
    · simp [hm]

/-- Soundness of the parsing loop: every entry of a successful parse
satisfies `EntrySpec` (given that the starting accumulator does). -/
lemma lwGo_sound (w : World) (mp : String) :
    ∀ (lines : List String) (st : PState) (acc ws : List WorktreeInfo),
      lwGo w mp lines st acc = .ok ws →
      (∀ e ∈ acc, EntrySpec w mp e) →
      ∀ e ∈ ws, EntrySpec w mp e := by
  intro lines
  induction lines with
  | nil =>
    intro st acc ws hok hacc e he
    simp only [lwGo] at hok
    cases hp : st.current_path with
    | none =>
      simp only [hp, Except.ok.injEq] at hok
      subst hok
      exact hacc e he
    | some p =>
      simp only [hp] at hok
      split at hok
      · cases hc : canonS w.nodes p with
        | none =>
          rw [hc] at hok
          exact Except.noConfusion hok
        | some cpath =>
          simp only [hc] at hok
          split at hok
          · simp only [Except.ok.injEq] at hok
            subst hok
            exact hacc e he
          · simp only [Except.ok.injEq] at hok
            subst hok
            rcases List.mem_append.mp he with h1 | h2
            · exact hacc e h1
            · rw [List.mem_singleton.mp h2]
              exact mkEntry_spec w mp p cpath _ hc
      · simp only [Except.ok.injEq] at hok
        subst hok
        exact hacc e he
  | cons line rest ih =>
    intro st acc ws hok hacc
    simp only [lwGo] at hok
    split at hok
    · cases hp : st.current_path with
      | none =>
        simp only [hp] at hok
        exact ih _ _ _ hok hacc
      | some p =>
        simp only [hp] at hok
        split at hok
        · cases hc : canonS w.nodes p with
          | none =>
            rw [hc] at hok
            exact Except.noConfusion hok
          | some cpath =>
            simp only [hc] at hok
            split at hok
            · exact ih _ _ _ hok hacc
            · refine ih _ _ _ hok ?_
              intro e he
              rcases List.mem_append.mp he with h1 | h2
              · exact hacc e h1
              · rw [List.mem_singleton.mp h2]
                exact mkEntry_spec w mp p cpath _ hc
        · exact ih _ _ _ hok hacc
    · exact ih _ _ _ hok hacc

/-- C3: refuted on the code — for a bare repository, `list_worktrees`
succeeds (its own path canonicalizes and git's porcelain listing parses) yet
returns no entry at all, because the repository's block is marked `bare` and
bare blocks are never surfaced; so there is no entry with `is_main = true`,
contradicting the claim that every successful call returns exactly one. -/
theorem list_worktrees_bare_no_main :
    (list_worktrees bareWorld "/srv/bare").1 = Except.ok []
    ∧ List.countP (fun e => e.is_main) ([] : List WorktreeInfo) = 0 :=
  ⟨rfl, rfl⟩

/-- C3 (amended): whenever `list_worktrees` succeeds and the repository path
canonicalizes to `mp`, every returned entry has `is_main` set exactly when
its canonical path equals `mp`; an `is_main` entry is named `"main"`
regardless of its branch; every other entry is named by the final path
component of its worktree path; and if exactly one listed worktree
canonicalizes to the repository's own path — as for an ordinary non-bare
repository, though not for a bare one — then exactly one entry has
`is_main = true`. -/
theorem list_worktrees_main_spec (w : World) (repo mp : String)
    (ws : List WorktreeInfo)
    (hmp : canonS w.nodes repo = some mp)
    (hok : (list_worktrees w repo).1 = .ok ws) :
    (∀ e ∈ ws, EntrySpec w mp e)
    ∧ (ws.countP (fun e => e.path == mp) = 1 →
        ws.countP (fun e => e.is_main) = 1) := by
  have hall : ∀ e ∈ ws, EntrySpec w mp e := by
    simp only [list_worktrees] at hok
    cases hr : runGitE w ["worktree", "list", "--porcelain"] repo with
    | error e =>
      rw [hr] at hok
      exact absurd hok (by simp)
    | ok out =>
      rw [hr] at hok
      simp only [hmp] at hok
      exact lwGo_sound w mp _ _ _ _ hok (by intro e he; cases he)
  refine ⟨hall, ?_⟩
  intro h1
  rw [← h1]
  apply List.countP_congr
  intro e he
  rw [(hall e he).1]

/-- C3 witness: in `repoWorld` (repository `/home/u/repo` with one linked
worktree `/home/u/wt1`), the parse succeeds with exactly one `is_main`
entry, named `"main"`, and satisfies the per-entry soundness property. -/
theorem list_worktrees_main_spec_witness :
    (list_worktrees repoWorld "/home/u/repo").1 = Except.ok repoWorldEntries
    ∧ repoWorldEntries.countP (fun e => e.is_main) = 1
    ∧ ∀ e ∈ repoWorldEntries, EntrySpec repoWorld "/home/u/repo" e := by
  have h := list_worktrees_main_spec repoWorld "/home/u/repo" "/home/u/repo"
    repoWorldEntries rfl rfl
  exact ⟨rfl, h.2 (by decide), h.1⟩

/-! ### Worktree removal (C4) -/

/-- The only command `find_git_repo_root` ever spawns is
`git rev-parse --git-dir` in the given path. -/
lemma find_git_repo_root_trace (w : World) (p : String) :
    (find_git_repo_root w p).2 = [Eff.git ["rev-parse", "--git-dir"] p] := by
  unfold find_git_repo_root
  cases w.run ["rev-parse", "--git-dir"] p with
  | error e => rfl
  | ok out =>
    simp only
    split
    · rfl
    · split
      · split
        · rfl
        · rfl
      · split
        · split
          · rfl
          · rfl
        · rfl

/-- The only command `list_worktrees` ever spawns is
`git worktree list --porcelain`. -/
lemma list_worktrees_trace (w : World) (repo : String) :
    (list_worktrees w repo).2 =
      [Eff.git ["worktree", "list", "--porcelain"] repo] := by
  unfold list_worktrees
  cases runGitE w ["worktree", "list", "--porcelain"] repo with
  | error e => rfl
  | ok out =>
    simp only
    split
    · rfl
    · rfl

/-- C4: with `force = true` the removal invocation is
`git worktree remove <canonical-path> --force --force` (the force flag
twice); after a successful removal with `delete_branch = true`, the command
`git branch -D <branch>` is issued exactly when the captured branch is not
in the protected set `{main, master, develop, development}`; and the overall
result is `Ok` whatever that branch-delete command returns, since the
hypotheses constrain every spawned command except the branch delete. -/
theorem remove_worktree_spec (w : World) (path repo pc b : String)
    (out : GitOut) (ws : List WorktreeInfo) :
    ((find_git_repo_root w path).1 = .ok repo →
     canonS w.nodes path = some pc →
     runGitE w ["worktree", "remove", pc, "--force", "--force"] repo = .ok out →
     remove_worktree w path true false =
       (.ok (), [Eff.git ["rev-parse", "--git-dir"] path,
                 Eff.git ["worktree", "remove", pc, "--force", "--force"] repo]))
    ∧ ((find_git_repo_root w path).1 = .ok repo →
       canonS w.nodes path = some pc →
       (list_worktrees w repo).1 = .ok ws →
       ((ws.find? (fun x => x.path == pc)).bind (fun x => x.branch)) = some b →
       runGitE w ["worktree", "remove", pc, "--force", "--force"] repo = .ok out →
       remove_worktree w path true true =
         (.ok (), [Eff.git ["rev-parse", "--git-dir"] path,
                   Eff.git ["worktree", "list", "--porcelain"] repo,
                   Eff.git ["worktree", "remove", pc, "--force", "--force"] repo] ++
           (if protected_branches.contains b then []
            else [Eff.git ["branch", "-D", b] repo]))) := by
  constructor
  · intro h1 hcanon hrm
    have hfr : find_git_repo_root w path =
        (Except.ok repo, [Eff.git ["rev-parse", "--git-dir"] path]) := by
      rw [← h1, ← find_git_repo_root_trace w path]
    unfold remove_worktree
    rw [hfr]
    simp [hcanon, hrm]
  · intro h1 hcanon hlw hfind hrm
    have hfr : find_git_repo_root w path =
        (Except.ok repo, [Eff.git ["rev-parse", "--git-dir"] path]) := by
      rw [← h1, ← find_git_repo_root_trace w path]
    have hlw2 : list_worktrees w repo =
        (Except.ok ws, [Eff.git ["worktree", "list", "--porcelain"] repo]) := by
      rw [← hlw, ← list_worktrees_trace w repo]
    unfold remove_worktree
    rw [hfr]
    by_cases hp : b ∈ protected_branches <;>
      simp [hcanon, hlw2, hfind, hrm, hp]

/-- C4 witness: in `removeWorld`, removing `/home/u/wt1` (branch `feat`)
with `force = true` and `delete_branch = true` issues the double-force
removal and the `git branch -D feat` command, and still succeeds although
that branch-delete command fails to spawn. -/
theorem remove_worktree_spec_witness :
    (remove_worktree removeWorld "/home/u/wt1" true true).1 = Except.ok ()
    ∧ Eff.git ["worktree", "remove", "/home/u/wt1", "--force", "--force"]
        "/home/u/wt1" ∈ (remove_worktree removeWorld "/home/u/wt1" true true).2
    ∧ Eff.git ["branch", "-D", "feat"] "/home/u/wt1"
        ∈ (remove_worktree removeWorld "/home/u/wt1" true true).2
    ∧ removeWorld.run ["branch", "-D", "feat"] "/home/u/wt1" =
        Except.error "spawn failure" := by
  have h := (remove_worktree_spec removeWorld "/home/u/wt1" "/home/u/wt1"
    "/home/u/wt1" "feat" ⟨true, "", ""⟩
    [⟨"main", "/home/u/wt1", some "feat", some "abc123", true, false, none,
      none, false, 0⟩]).2 rfl rfl rfl rfl rfl
  rw [h]
  exact ⟨rfl, by decide, by decide, rfl⟩

/-! ### Worktree creation at a path (C5) -/

/-- C5: when validation of the destination against the allowed bases fails,
`create_worktree_at_path` aborts with that validation error and its effect
trace is empty — no directory is created and no git command is spawned, so
the filesystem is untouched; and every git command the operation can ever
spawn is `git worktree add <destination> --detach [<ref>]`, which carries
`--detach` whether or not a branch or commit reference was supplied. -/
theorem create_worktree_at_path_spec :
    (∀ (w : World) (repo dest : String) (ref : Option String) (rp e : String),
      canonS w.nodes repo = some rp →
      validate_path_within_bases w.nodes (strToPath dest)
        (get_allowed_worktree_bases w) = .error e →
      create_worktree_at_path w repo dest ref = (.error e, []))
    ∧ (∀ (w : World) (repo dest : String) (ref : Option String)
        (args : List String) (cwd : String),
        Eff.git args cwd ∈ (create_worktree_at_path w repo dest ref).2 →
        args = ["worktree", "add", dest, "--detach"] ++ ref.toList) := by
  constructor
  · intro w repo dest ref rp e hcanon hval
    unfold create_worktree_at_path
    simp only [hcanon, hval]
  · intro w repo dest ref args cwd hmem
    unfold create_worktree_at_path at hmem
    cases hc : canonS w.nodes repo with
    | none => simp only [hc] at hmem; simp at hmem
    | some rp =>
      simp only [hc] at hmem
      cases hv : validate_path_within_bases w.nodes (strToPath dest)
          (get_allowed_worktree_bases w) with
      | error e => simp only [hv] at hmem; simp at hmem
      | ok cp =>
        simp only [hv] at hmem
        cases hps : parentS dest with
        | none =>
          simp only [hps] at hmem
          cases hr : runGitE w (["worktree", "add", dest, "--detach"] ++
              ref.toList) rp with
          | error e2 =>
            simp only [hr, List.nil_append, List.mem_singleton,
              Eff.git.injEq] at hmem
            exact hmem.1
          | ok out2 =>
            cases hcd : canonS w.nodes dest with
            | none =>
              simp only [hr, hcd, List.nil_append, List.mem_singleton,
                Eff.git.injEq] at hmem
              exact hmem.1
            | some created =>
              simp only [hr, hcd, List.nil_append, List.mem_singleton,
                Eff.git.injEq] at hmem
              exact hmem.1
        | some parent =>
          simp only [hps] at hmem
          cases hm : w.mkdirErr parent with
          | some e3 => simp only [hm] at hmem; simp at hmem
          | none =>
            simp only [hm] at hmem
            cases hr : runGitE w (["worktree", "add", dest, "--detach"] ++
                ref.toList) rp with
            | error e2 =>
              simp only [hr, List.mem_append, List.mem_singleton,
                Eff.git.injEq] at hmem
              rcases hmem with h | h
              · simp at h
              · exact h.1
            | ok out2 =>
              cases hcd : canonS w.nodes dest with
              | none =>
                simp only [hr, hcd, List.mem_append, List.mem_singleton,
                  Eff.git.injEq] at hmem
                rcases hmem with h | h
                · simp at h
                · exact h.1
              | some created =>
                simp only [hr, hcd, List.mem_append, List.mem_singleton,
                  Eff.git.injEq] at hmem
                rcases hmem with h | h
                · simp at h
                · exact h.1

/-- C5 witness: in `escapeDestWorld`, creating a worktree at `/etc/x`
(outside both allowed bases) aborts with the traversal error and an empty
effect trace; and in `addAgentWorld` a successful creation issues a
`git worktree add` carrying `--detach` even though a branch was supplied. -/
theorem create_worktree_at_path_spec_witness :
    create_worktree_at_path escapeDestWorld "/home/u" "/etc/x" none =
      (Except.error
        "Path traversal detected: /etc/x is not within allowed directories", [])
    ∧ Eff.git ["worktree", "add", "/h/.aristar-worktrees/tasks/t1/fix-m1",
        "--detach", "main"] "/h/repo" ∈
        (create_worktree_at_path addAgentWorld "/h/repo"
          "/h/.aristar-worktrees/tasks/t1/fix-m1" (some "main")).2
    ∧ "--detach" ∈ ["worktree", "add", "/h/.aristar-worktrees/tasks/t1/fix-m1",
        "--detach", "main"] :=
  ⟨create_worktree_at_path_spec.1 escapeDestWorld "/home/u" "/etc/x" none
    "/home/u"
    "Path traversal detected: /etc/x is not within allowed directories"
    rfl rfl,
   by decide, by decide⟩

/-! ### Store helper lemmas (C6, C7, C9, C10) -/

/-- Updating the first element found by `p` with an update that preserves
`p` relocates the `find?` result onto the updated element. -/
lemma find?_updateFirst {α : Type} {p : α → Bool} {f : α → α} {l : List α}
    {x : α} (h : l.find? p = some x) (hf : p (f x) = true) :
    (updateFirst p f l).find? p = some (f x) := by
  induction l with
  | nil => cases h
  | cons y ys ih =>
    cases hy : p y with
    | true =>
      rw [List.find?_cons_of_pos _ hy] at h
      injection h with h
      subst h
      simp only [updateFirst, hy, if_true]
      rw [List.find?_cons_of_pos _ hf]
    | false =>
      rw [List.find?_cons_of_neg _ (by simp [hy])] at h
      simp only [updateFirst, hy, Bool.false_eq_true, if_false]
      rw [List.find?_cons_of_neg _ (by simp [hy])]
      exact ih h

/-- Clearing every `accepted` flag and then setting it on the first agent
with the given id yields exactly one accepted agent, whose id is that id;
the agent count is unchanged. -/
lemma accept_mark (aid : String) (l : List TaskAgent)
    (hmem : ∃ a ∈ l, a.id = aid) :
    (updateFirst (fun a => a.id == aid) (fun a => { a with accepted := true })
      (l.map (fun a => { a with accepted := false }))).countP
        (fun a => a.accepted) = 1
    ∧ (∀ a ∈ updateFirst (fun a => a.id == aid)
          (fun a => { a with accepted := true })
          (l.map (fun a => { a with accepted := false })),
        a.accepted = true → a.id = aid)
    ∧ (updateFirst (fun a => a.id == aid) (fun a => { a with accepted := true })
        (l.map (fun a => { a with accepted := false }))).length = l.length := by
  induction l with
  | nil => obtain ⟨a, ha, -⟩ := hmem; cases ha
  | cons x xs ih =>
    by_cases hx : x.id = aid
    · have hxb : (x.id == aid) = true := by simp [hx]
      simp only [List.map_cons, updateFirst, hxb, if_true]
      refine ⟨?_, ?_, ?_⟩
      · simp only [List.countP_cons, if_pos rfl]
        have h0 : (xs.map (fun a => { a with accepted := false })).countP
            (fun a => a.accepted) = 0 := by
          rw [List.countP_eq_zero]
          intro a ha
          obtain ⟨b, hb, rfl⟩ := List.mem_map.mp ha
          simp
        simp [h0]
      · intro a ha hacc
        rcases List.mem_cons.mp ha with rfl | ha
        · exact hx
        · obtain ⟨b, hb, rfl⟩ := List.mem_map.mp ha
          cases hacc
      · simp
    · have hxb : (x.id == aid) = false := by simp [hx]
      simp only [List.map_cons, updateFirst, hxb, Bool.false_eq_true, if_false]
      have hmem' : ∃ a ∈ xs, a.id = aid := by
        obtain ⟨a, ha, haid⟩ := hmem
        rcases List.mem_cons.mp ha with rfl | ha
        · exact absurd haid hx
        · exact ⟨a, ha, haid⟩
      obtain ⟨ih1, ih2, ih3⟩ := ih hmem'
      refine ⟨?_, ?_, ?_⟩
      · simp only [List.countP_cons, ih1]
        simp
      · intro a ha hacc
        rcases List.mem_cons.mp ha with rfl | ha
        · cases hacc
        · exact ih2 a ha hacc
      · simp [ih3]

/-- C6: a successful `accept_agent_impl` on an agent id present in the task
leaves exactly one agent of the task accepted, namely one carrying the named
id, whatever the prior `accepted` flags were (they are all cleared first),
and the agent count is unchanged.  Applying the same statement to the
resulting store with a different existing agent id transfers the flag. -/
theorem accept_agent_single_accepted (w : World) (store : TaskStore)
    (tid aid : String) (now : Int) (t : Task)
    (hfind : store.find? (fun x => x.id == tid) = some t)
    (hmem : ∃ a ∈ t.agents, a.id = aid)
    (hsave : w.saveErr = none) :
    (accept_agent_impl w store tid aid now).1 = .ok ()
    ∧ ∃ t', (accept_agent_impl w store tid aid now).2.1.find?
          (fun x => x.id == tid) = some t'
        ∧ t'.agents.countP (fun a => a.accepted) = 1
        ∧ (∀ a ∈ t'.agents, a.accepted = true → a.id = aid)
        ∧ t'.agents.length = t.agents.length := by
  have hfc : ∃ a0, (t.agents.map (fun a => { a with accepted := false })).find?
      (fun a => a.id == aid) = some a0 := by
    rw [← Option.isSome_iff_exists]
    rw [List.find?_isSome]
    obtain ⟨a, ha, haid⟩ := hmem
    exact ⟨{ a with accepted := false }, List.mem_map.mpr ⟨a, ha, rfl⟩,
      by simp [haid]⟩
  obtain ⟨a0, ha0⟩ := hfc
  unfold accept_agent_impl
  simp only [hfind, ha0, hsave]
  refine ⟨trivial, ?_⟩
  obtain ⟨h1, h2, h3⟩ := accept_mark aid t.agents hmem
  have hpt := List.find?_some hfind
  refine ⟨_, find?_updateFirst hfind (by simpa using hpt), ?_, ?_, ?_⟩
  · exact h1
  · exact h2
  · exact h3

/-- C6 witness: on `sampleTask` (whose second agent is accepted), accepting
`agent-3` succeeds and leaves exactly `agent-3` accepted; accepting
`agent-1` on the resulting store leaves exactly `agent-1` accepted. -/
theorem accept_agent_single_accepted_witness :
    (accept_agent_impl agentWorld [sampleTask] "t1" "agent-3" 5).1 = Except.ok ()
    ∧ (((accept_agent_impl agentWorld [sampleTask] "t1" "agent-3" 5).2.1.find?
          (fun x => x.id == "t1")).map
        (fun t => (t.agents.filter (fun a => a.accepted)).map (fun a => a.id)))
      = some ["agent-3"]
    ∧ (((accept_agent_impl agentWorld
          (accept_agent_impl agentWorld [sampleTask] "t1" "agent-3" 5).2.1
          "t1" "agent-1" 6).2.1.find? (fun x => x.id == "t1")).map
        (fun t => (t.agents.filter (fun a => a.accepted)).map (fun a => a.id)))
      = some ["agent-1"] := by
  refine ⟨?_, by decide, by decide⟩
  exact (accept_agent_single_accepted agentWorld [sampleTask] "t1" "agent-3" 5
    sampleTask rfl ⟨sampleAgent 3 false, by decide, rfl⟩ rfl).1

/-- C9: calling `accept_agent_impl` with a task that exists and an agent id
not present in it returns the `Agent not found` error, yet the in-memory
store already has every `accepted` flag of that task cleared and is not
restored, and `state.save()` is never invoked (the persisted file is not
rewritten). -/
theorem accept_agent_not_found_clears (w : World) (store : TaskStore)
    (tid aid : String) (now : Int) (t : Task)
    (hfind : store.find? (fun x => x.id == tid) = some t)
    (hnone : ∀ a ∈ t.agents, ¬ a.id = aid) :
    (accept_agent_impl w store tid aid now).1 =
      .error ("Agent not found: " ++ aid)
    ∧ (accept_agent_impl w store tid aid now).2.2 = false
    ∧ ∃ t', (accept_agent_impl w store tid aid now).2.1.find?
          (fun x => x.id == tid) = some t'
        ∧ t'.agents = t.agents.map (fun a => { a with accepted := false })
        ∧ ∀ a ∈ t'.agents, a.accepted = false := by
  have hfc : (t.agents.map (fun a => { a with accepted := false })).find?
      (fun a => a.id == aid) = none := by
    rw [List.find?_eq_none]
    intro x hx
    obtain ⟨b, hb, rfl⟩ := List.mem_map.mp hx
    simpa using hnone b hb
  unfold accept_agent_impl
  simp only [hfind, hfc]
  have hpt := List.find?_some hfind
  refine ⟨trivial, trivial, ?_⟩
  refine ⟨_, find?_updateFirst hfind (by simpa using hpt), rfl, ?_⟩
  intro a ha
  obtain ⟨b, hb, rfl⟩ := List.mem_map.mp ha
  rfl

/-- C9 witness: on `sampleTask` (with `agent-2` accepted beforehand),
accepting the missing id `agent-9` fails with `Agent not found`, does not
save, and leaves all three agents of the stored task unaccepted. -/
theorem accept_agent_not_found_clears_witness :
    (accept_agent_impl agentWorld [sampleTask] "t1" "agent-9" 5).1 =
      Except.error "Agent not found: agent-9"
    ∧ (accept_agent_impl agentWorld [sampleTask] "t1" "agent-9" 5).2.2 = false
    ∧ (((accept_agent_impl agentWorld [sampleTask] "t1" "agent-9" 5).2.1.find?
          (fun x => x.id == "t1")).map
        (fun t => t.agents.map (fun a => a.accepted))) =
        some [false, false, false]
    ∧ sampleTask.agents.map (fun a => a.accepted) = [false, true, false] := by
  have h := accept_agent_not_found_clears agentWorld [sampleTask] "t1"
    "agent-9" 5 sampleTask rfl (by decide)
  exact ⟨h.1, h.2.1, by decide, by decide⟩

/-- Every run of `remove_worktree` starts by spawning
`git rev-parse --git-dir` in the given path, whatever else happens. -/
lemma remove_worktree_trace_head (w : World) (p : String) (force db : Bool) :
    Eff.git ["rev-parse", "--git-dir"] p ∈ (remove_worktree w p force db).2 := by
  have htr := find_git_repo_root_trace w p
  unfold remove_worktree
  cases hfr : find_git_repo_root w p with
  | mk r tr =>
    rw [hfr] at htr
    simp only at htr
    subst htr
    cases r with
    | error e => simp
    | ok repo =>
      simp only
      (repeat' split) <;> simp

/-- Membership in a conditional-append fold: anything in the accumulator, or
contributed by a passing element, is in the fold's result. -/
lemma mem_foldl_filter_append {α β : Type} (g : β → List α) (c : β → Bool)
    (x : α) :
    ∀ (l : List β) (acc : List α),
      (x ∈ acc ∨ ∃ y ∈ l, c y = true ∧ x ∈ g y) →
      x ∈ l.foldl (fun a y => if c y then a ++ g y else a) acc := by
  intro l
  induction l with
  | nil =>
    intro acc h
    rcases h with h | ⟨y, hy, -⟩
    · exact h
    · cases hy
  | cons z zs ih =>
    intro acc h
    simp only [List.foldl_cons]
    apply ih
    cases hz : c z with
    | true =>
      simp only [if_true]
      rcases h with h | ⟨y, hy, hcy, hx⟩
      · exact Or.inl (List.mem_append_left _ h)
      · rcases List.mem_cons.mp hy with rfl | hy
        · exact Or.inl (List.mem_append_right _ hx)
        · exact Or.inr ⟨y, hy, hcy, hx⟩
    | false =>
      simp only [Bool.false_eq_true, if_false]
      rcases h with h | ⟨y, hy, hcy, hx⟩
      · exact Or.inl h
      · rcases List.mem_cons.mp hy with rfl | hy
        · exact absurd hcy (by simp [hz])
        · exact Or.inr ⟨y, hy, hcy, hx⟩

/-- C7: `cleanup_unaccepted_agents_impl` on an existing task succeeds for
every environment (individual worktree-removal failures are swallowed: the
hypotheses leave every git command unconstrained), retains exactly the
accepted agents — so afterwards every remaining agent has `accepted = true`
— and attempts a removal (beginning with `git rev-parse --git-dir`) for each
unaccepted agent whose worktree path exists on disk. -/
theorem cleanup_unaccepted_spec (w : World) (store : TaskStore)
    (tid : String) (now : Int) (t : Task)
    (hfind : store.find? (fun x => x.id == tid) = some t)
    (hsave : w.saveErr = none) :
    (cleanup_unaccepted_agents_impl w store tid now).1 = .ok ()
    ∧ (∃ t', (cleanup_unaccepted_agents_impl w store tid now).2.1.find?
          (fun x => x.id == tid) = some t'
        ∧ t'.agents = t.agents.filter (fun a => a.accepted)
        ∧ ∀ a ∈ t'.agents, a.accepted = true)
    ∧ ∀ a ∈ t.agents, a.accepted = false →
        existsS w.nodes a.worktree_path = true →
        Eff.git ["rev-parse", "--git-dir"] a.worktree_path ∈
          (cleanup_unaccepted_agents_impl w store tid now).2.2 := by
  have hpt := List.find?_some hfind
  unfold cleanup_unaccepted_agents_impl
  simp only [hfind, hsave]
  refine ⟨trivial, ?_, ?_⟩
  · refine ⟨_, find?_updateFirst hfind (by simpa using hpt), rfl, ?_⟩
    intro a ha
    exact List.of_mem_filter ha
  · intro a ha hacc hex
    apply mem_foldl_filter_append
    refine Or.inr ⟨(a.id, a.worktree_path), ?_, hex, ?_⟩
    · exact List.mem_map.mpr ⟨a, List.mem_filter.mpr ⟨ha, by simp [hacc]⟩, rfl⟩
    · exact remove_worktree_trace_head w a.worktree_path true false

/-- C7 witness: in `cleanupWorld` (where the unaccepted agents' worktrees
`/h/w1` and `/h/w3` exist but every git command fails to spawn), cleaning up
`sampleTask` still succeeds, leaves only the accepted `agent-2`, and the
trace shows a removal was attempted for `/h/w1`. -/
theorem cleanup_unaccepted_spec_witness :
    (cleanup_unaccepted_agents_impl cleanupWorld [sampleTask] "t1" 7).1 =
      Except.ok ()
    ∧ (((cleanup_unaccepted_agents_impl cleanupWorld [sampleTask] "t1"
          7).2.1.find? (fun x => x.id == "t1")).map
        (fun t => t.agents.map (fun a => a.id))) = some ["agent-2"]
    ∧ Eff.git ["rev-parse", "--git-dir"] "/h/w1" ∈
        (cleanup_unaccepted_agents_impl cleanupWorld [sampleTask] "t1" 7).2.2 := by
  have h := cleanup_unaccepted_spec cleanupWorld [sampleTask] "t1" 7
    sampleTask rfl rfl
  exact ⟨h.1, by decide, h.2.2 (sampleAgent 1 false) (by decide) rfl rfl⟩

/-- Counting a predicate and its negation partitions a list's length. -/
lemma countP_not_add {α : Type} (p : α → Bool) (l : List α) :
    l.countP (fun a => !p a) + l.countP p = l.length := by
  induction l with
  | nil => rfl
  | cons x xs ih =>
    cases hx : p x <;> simp [List.countP_cons, hx] <;> omega

/-- C10: `add_agent_to_task_impl` assigns the new agent the id
`agent-(N+1)` where `N` is the task's current agent count.  Consequently,
for a task whose ids are the standard `agent-1 .. agent-N` (expressed by the
presence of an agent carrying id `agent-N`), removing any agent other than
that most recently numbered one and then adding an agent produces the id
`agent-N` again — equal to the id of an agent still in the list. -/
theorem add_agent_id_reuse_spec :
    (∀ (w : World) (store : TaskStore) (tid model provider : String)
       (atype : Option String) (now : Int) (t : Task) (created : String)
       (tr : List Eff),
      store.find? (fun x => x.id == tid) = some t →
      create_worktree_at_path w t.source_repo_path
          (get_task_folder_path w tid ++ "/" ++ agentWorktreeName t.name model)
          (if t.source_type == "commit" then t.source_commit
           else t.source_branch) = (.ok created, tr) →
      w.saveErr = none →
      (add_agent_to_task_impl w store tid model provider atype now).1 =
        .ok { t with
          agents := t.agents ++
            [⟨"agent-" ++ toString (t.agents.length + 1), model, provider,
              atype, created, none, AgentStatus.Idle, false, now⟩],
          updated_at := now })
    ∧ (∀ (w : World) (store : TaskStore) (tid rid model provider : String)
         (atype : Option String) (now1 now2 : Int) (t : Task) (a : TaskAgent)
         (created : String) (tr : List Eff),
        store.find? (fun x => x.id == tid) = some t →
        a ∈ t.agents →
        a.id = "agent-" ++ toString t.agents.length →
        ¬ a.id = rid →
        t.agents.countP (fun x => x.id == rid) = 1 →
        w.saveErr = none →
        create_worktree_at_path w t.source_repo_path
            (get_task_folder_path w tid ++ "/" ++ agentWorktreeName t.name model)
            (if t.source_type == "commit" then t.source_commit
             else t.source_branch) = (.ok created, tr) →
        (remove_agent_from_task_impl w store tid rid false now1).1 = .ok ()
        ∧ ∃ t3 newAg,
            (add_agent_to_task_impl w
              (remove_agent_from_task_impl w store tid rid false now1).2.1
              tid model provider atype now2).1 = .ok t3
            ∧ t3.agents =
                t.agents.filter (fun x => !(x.id == rid)) ++ [newAg]
            ∧ newAg.id = a.id
            ∧ a ∈ t.agents.filter (fun x => !(x.id == rid))) := by
  constructor
  · intro w store tid model provider atype now t created tr hfind hcr hsave
    unfold add_agent_to_task_impl
    simp only [hfind, hcr, hsave]
  · intro w store tid rid model provider atype now1 now2 t a created tr
      hfind hmem hida hne hcount hsave hcr
    have hpt := List.find?_some hfind
    have hrid : ∃ b ∈ t.agents, (b.id == rid) = true := by
      rw [← List.countP_pos_iff]
      omega
    obtain ⟨b, hb, hbid⟩ := hrid
    have hbf : t.agents.find? (fun x => x.id == rid) ≠ none := by
      rw [Ne, List.find?_eq_none]
      push_neg
      exact ⟨b, hb, hbid⟩
    obtain ⟨b0, hb0⟩ := Option.ne_none_iff_exists'.mp hbf
    unfold remove_agent_from_task_impl
    simp only [hfind, hb0, hsave, Bool.false_and, Bool.false_eq_true, if_false]
    constructor
    · trivial
    · have hfind2 := find?_updateFirst
        (f := fun t2 => { t2 with agents := t2.agents.filter (fun a => !(a.id == rid)), updated_at := now1 })
        hfind (by simpa using hpt)
      have hlen : (t.agents.filter (fun x => !(x.id == rid))).length =
          t.agents.length - 1 := by
        have h1 := countP_not_add (fun x => x.id == rid) t.agents
        have h2 := List.countP_eq_length_filter
          (fun x => !(x.id == rid)) t.agents
        omega
      have hnpos : 0 < t.agents.length :=
        List.length_pos.mpr (List.ne_nil_of_mem hmem)
      unfold add_agent_to_task_impl
      simp only [hfind2, hcr, hsave]
      refine ⟨_, _, rfl, rfl, ?_, ?_⟩
      · simp only [hlen]
        rw [Nat.sub_add_cancel hnpos]
        exact hida.symm
      · exact List.mem_filter.mpr ⟨hmem, by simp [hne]⟩

/-- C10 witness: on `twoAgentTask` (ids `agent-1`, `agent-2`), removing
`agent-1` and then adding an agent in `addAgentWorld` yields the id
`agent-2` for the new agent, duplicating the id of the remaining agent. -/
theorem add_agent_id_reuse_spec_witness :
    (remove_agent_from_task_impl addAgentWorld [twoAgentTask] "t1" "agent-1"
      false 1).1 = Except.ok ()
    ∧ ((add_agent_to_task_impl addAgentWorld
        (remove_agent_from_task_impl addAgentWorld [twoAgentTask] "t1"
          "agent-1" false 1).2.1
        "t1" "m1" "p1" none 2).1).map
        (fun t3 => t3.agents.map (fun ag => ag.id)) =
      Except.ok ["agent-2", "agent-2"] := by
  have h := add_agent_id_reuse_spec.2 addAgentWorld [twoAgentTask] "t1"
    "agent-1" "m1" "p1" none 1 2 twoAgentTask (sampleAgent 2 false)
    "/h/.aristar-worktrees/tasks/t1/fix-m1"
    [Eff.mkdirAll "/h/.aristar-worktrees/tasks/t1",
     Eff.git ["worktree", "add", "/h/.aristar-worktrees/tasks/t1/fix-m1",
       "--detach", "main"] "/h/repo"]
    rfl (by decide) rfl (by decide) (by decide) rfl rfl
  exact ⟨h.1, rfl⟩

end Aristar
